import Mathlib

/-!
Verification development for the Raiku deterministic battle simulator.

The TypeScript sources are embedded shallowly:

* JavaScript 32-bit integer arithmetic (the seeded generator in
  src/seedRng.ts) is modelled over natural numbers with explicit
  reduction modulo 2^32; bitwise operators are the corresponding
  natural-number bitwise operators, which agree with the twos-complement
  bit patterns the JS operators act on.
* JavaScript floating-point values produced by the generator are exact
  dyadic rationals (a 32-bit word divided by 2^32), so the stream values
  are modelled in the rational numbers; the damage formula of
  src/battleEngine.ts is modelled with exact rational arithmetic,
  abstracting IEEE-754 rounding of the fractional constants.
* Mutable fighter objects are modelled by explicit state passing: a team
  is a list of fighter records, and a reference to a fighter is a pair of
  a team tag and an index into that team.
* The implementation-defined comparator invocation pattern of
  ECMAScript Array.prototype.sort is modelled as a stateful insertion
  sort, fixing one normative comparator evaluation order as spec section
  9 requires.
-/

/-! ## Deterministic stream generator (src/seedRng.ts) -/

/-- Math.imul: low 32 bits of the product, as an unsigned word. -/
def imul32 (x y : ℕ) : ℕ := (x * y) % 2 ^ 32

/-- One character step of the xmur3 seeding loop:
h = imul(h XOR code, 3432918353); h = (h shiftLeft 13) or (h shiftRight 19). -/
def xmur3Step (h code : ℕ) : ℕ :=
  let h1 := imul32 (h ^^^ code) 3432918353
  ((h1 <<< 13) % 2 ^ 32) ||| (h1 >>> 19)

/-- Folding the seed characters into the xmur3 accumulator, starting from
1779033703 XOR length. -/
def xmur3Init (codeUnits : List ℕ) : ℕ :=
  codeUnits.foldl xmur3Step (1779033703 ^^^ (codeUnits.length % 2 ^ 32))

/-- The single invocation of the closure returned by xmur3: the final
mixing pass producing the mulberry32 seed. -/
def xmur3Final (h : ℕ) : ℕ :=
  let h1 := imul32 (h ^^^ (h >>> 16)) 2246822507
  let h2 := imul32 (h1 ^^^ (h1 >>> 13)) 3266489909
  h2 ^^^ (h2 >>> 16)

/-- UTF-16 code units of a string, as charCodeAt enumerates them. -/
def codeUnits (s : String) : List ℕ :=
  s.data.foldr (fun c acc =>
    let n := c.toNat
    if n < 0x10000 then n :: acc
    else (0xD800 + ((n - 0x10000) >>> 10)) :: (0xDC00 + ((n - 0x10000) &&& 0x3FF)) :: acc) []

/-- Seeding: createDeterministicRng computes xmur3(seed)() as the
mulberry32 state. -/
def seedState (seed : String) : ℕ := xmur3Final (xmur3Init (codeUnits seed))

/-- One step of mulberry32: returns the produced 32-bit word and the new
state (the state advances by the odd constant 0x6D2B79F5). The source
accumulates the state in a plain JS number without wrapping; the modular
reduction here agrees with the ToInt32 coercion the bitwise operators
apply to it, exactly for as long as the accumulator stays below 2^53
(about 4.9 million draws, far beyond any simulation). -/
def mulberry32Step (a : ℕ) : ℕ × ℕ :=
  let a1 := (a + 0x6D2B79F5) % 2 ^ 32
  let t1 := imul32 (a1 ^^^ (a1 >>> 15)) (a1 ||| 1)
  let t2 := t1 ^^^ ((t1 + imul32 (t1 ^^^ (t1 >>> 7)) (t1 ||| 61)) % 2 ^ 32)
  (t2 ^^^ (t2 >>> 14), a1)

/-- rng.next(): the produced word divided by 2^32, an exact dyadic
rational in [0, 1). -/
def rngNext (s : ℕ) : ℚ × ℕ :=
  (((mulberry32Step s).1 : ℚ) / 4294967296, (mulberry32Step s).2)

/-- rng.nextInt(maxExclusive): returns 0 without consuming the stream when
the bound is nonpositive, otherwise floor(next() * maxExclusive). -/
def rngNextInt (s : ℕ) (maxExclusive : ℤ) : ℤ × ℕ :=
  if maxExclusive ≤ 0 then (0, s)
  else (⌊(rngNext s).1 * (maxExclusive : ℚ)⌋, (rngNext s).2)

/-! ## Data model (src/types.ts) -/

/-- Combatant template: immutable caller-provided stats. Integer-valued
stats are modelled in the integers, probabilities and multipliers in the
rationals. -/
structure Character where
  id : String
  name : String
  maxHp : ℤ
  attack : ℤ
  defense : ℤ
  speed : ℤ
  critChance : ℚ
  skillMultiplier : ℚ
deriving DecidableEq, Repr

/-- Mutable per-simulation fighter state. -/
structure InternalFighter where
  base : Character
  hp : ℤ
  alive : Bool
deriving DecidableEq, Repr

instance : Inhabited Character :=
  ⟨{ id := "", name := "", maxHp := 0, attack := 0, defense := 0, speed := 0,
     critChance := 0, skillMultiplier := 0 }⟩

instance : Inhabited InternalFighter := ⟨{ base := default, hp := 0, alive := false }⟩

/-- The two mutable teams owned by one simulation run. -/
structure BattleTeams where
  teamA : List InternalFighter
  teamB : List InternalFighter
deriving DecidableEq, Repr

/-- Team tag, the actorTeam discriminant. -/
inductive TeamTag where
  | A
  | B
deriving DecidableEq, Repr

/-- Snapshot of one participant inside an event. -/
structure CharacterSnapshot where
  id : String
  name : String
  hpBefore : ℤ
  hpAfter : ℤ
deriving DecidableEq, Repr

/-- One immutable battle event. -/
structure BattleEvent where
  round : ℕ
  actorTeam : TeamTag
  actor : CharacterSnapshot
  target : CharacterSnapshot
  damage : ℤ
  isCrit : Bool
  description : String
deriving DecidableEq, Repr

/-- Final per-fighter snapshot. -/
structure FighterState where
  id : String
  name : String
  hp : ℤ
  maxHp : ℤ
  alive : Bool
deriving DecidableEq, Repr

/-- Simulation configuration. -/
structure BattleConfig where
  seed : String
  maxRounds : ℤ
deriving DecidableEq, Repr

/-- Winner discriminant. -/
inductive Winner where
  | A
  | B
  | DRAW
deriving DecidableEq, Repr

/-- Final state snapshot of both teams. -/
structure FinalState where
  teamA : List FighterState
  teamB : List FighterState
deriving DecidableEq, Repr

/-- The battle result record. -/
structure BattleResult where
  config : BattleConfig
  winner : Winner
  rounds : ℕ
  log : List BattleEvent
  finalState : FinalState
  logHash : String
deriving DecidableEq, Repr

/-! ## Engine helpers (src/battleEngine.ts) -/

/-- cloneTeams: fighters start at full health with the alive flag set. -/
def cloneTeams (teamA teamB : List Character) : BattleTeams :=
  { teamA := teamA.map (fun c => { base := c, hp := c.maxHp, alive := true }),
    teamB := teamB.map (fun c => { base := c, hp := c.maxHp, alive := true }) }

/-- snapshotFighter. -/
def snapshotFighter (f : InternalFighter) : FighterState :=
  { id := f.base.id, name := f.base.name, hp := f.hp, maxHp := f.base.maxHp,
    alive := f.alive }

/-- allDead: every fighter of the team has a cleared alive flag. -/
def allDead (team : List InternalFighter) : Bool :=
  team.all (fun f => !f.alive)

/-- Indices of the living fighters of a team, in team order; the filtered
list opponents.filter(alive) is recovered by reading these indices back. -/
def livingIdx (team : List InternalFighter) : List ℕ :=
  (List.range team.length).filter (fun i => (team.getD i default).alive)

/-- chooseTarget: filter to living fighters; none means no target; else one
bounded draw indexes into the filtered list. The returned index points into
the original team list, modelling the returned object reference. -/
def chooseTarget (s : ℕ) (opponents : List InternalFighter) : Option ℕ × ℕ :=
  let living := livingIdx opponents
  if living.length = 0 then (none, s)
  else
    let r := rngNextInt s (living.length : ℤ)
    (some (living.getD r.1.toNat 0), r.2)

/-- computeDamage: three positional draws (skill roll, crit roll, variance
roll), exact rational arithmetic, floored and clamped to a minimum of 1. -/
def computeDamage (s : ℕ) (attacker defender : InternalFighter) :
    (ℤ × Bool) × ℕ :=
  let base : ℚ := max 1 ((attacker.base.attack : ℚ) - (defender.base.defense : ℚ) * (1 / 2))
  let r1 := rngNext s
  let useSkill := r1.1 < 35 / 100
  let r2 := rngNext r1.2
  let isCrit := r2.1 < attacker.base.critChance
  let skillMultiplier := if useSkill then attacker.base.skillMultiplier else 1
  let r3 := rngNext r2.2
  let variance := 9 / 10 + r3.1 * (2 / 10)
  let dmg0 := base * skillMultiplier * variance
  let dmg := if isCrit then dmg0 * (17 / 10) else dmg0
  ((max 1 ⌊dmg⌋, isCrit), r3.2)

/-- Printed team letter. -/
def tagStr : TeamTag → String
  | .A => "A"
  | .B => "B"

/-- The opposing tag. -/
def opponentTag : TeamTag → TeamTag
  | .A => .B
  | .B => .A

/-- The team a tag denotes. -/
def teamOf (teams : BattleTeams) : TeamTag → List InternalFighter
  | .A => teams.teamA
  | .B => teams.teamB

/-- The opposing team of an acting tag. -/
def opponentsOf (teams : BattleTeams) (tag : TeamTag) : List InternalFighter :=
  teamOf teams (opponentTag tag)

/-- A reference to one fighter in the turn order: team tag plus index. -/
structure TurnEntry where
  team : TeamTag
  idx : ℕ
deriving DecidableEq, Repr

/-- Dereference a turn entry in the current teams state. -/
def getFighter (teams : BattleTeams) (e : TurnEntry) : InternalFighter :=
  (teamOf teams e.team).getD e.idx default

/-- Write back one fighter through a reference. -/
def setFighter (teams : BattleTeams) (tag : TeamTag) (i : ℕ) (f : InternalFighter) :
    BattleTeams :=
  match tag with
  | .A => { teams with teamA := teams.teamA.set i f }
  | .B => { teams with teamB := teams.teamB.set i f }

/-- The speed a turn entry sorts by (speeds are template data, immutable
during the round). -/
def speedOf (teams : BattleTeams) (e : TurnEntry) : ℤ :=
  (getFighter teams e).base.speed

/-- Collection step of turn order resolution: the living fighters of team
A in team order, then those of team B. -/
def livingEntries (teams : BattleTeams) : List TurnEntry :=
  (livingIdx teams.teamA).map (fun i => { team := .A, idx := i }) ++
    (livingIdx teams.teamB).map (fun i => { team := .B, idx := i })

/-- The sort comparator: speed difference when speeds differ (no draw),
otherwise two fresh stream draws ordered by their difference. -/
def cmpEntries (teams : BattleTeams) (s : ℕ) (x y : TurnEntry) : ℚ × ℕ :=
  if speedOf teams x ≠ speedOf teams y then
    (((speedOf teams y - speedOf teams x : ℤ) : ℚ), s)
  else
    let rollA := rngNext s
    let rollB := rngNext rollA.2
    (rollB.1 - rollA.1, rollB.2)

/-- Stateful ordered insertion: the element is placed before the first
element the comparator orders it strictly before. -/
def insertEntry (teams : BattleTeams) (x : TurnEntry) :
    List TurnEntry → ℕ → List TurnEntry × ℕ
  | [], s => ([x], s)
  | y :: ys, s =>
    let c := cmpEntries teams s x y
    if c.1 < 0 then (x :: y :: ys, c.2)
    else
      let ins := insertEntry teams x ys c.2
      (y :: ins.1, ins.2)

/-- Stateful insertion sort: the normative model of the comparator
invocation order of fighters.sort. -/
def sortEntries (teams : BattleTeams) (l : List TurnEntry) (s : ℕ) :
    List TurnEntry × ℕ :=
  l.foldl (fun acc x =>
    insertEntry teams x acc.1 acc.2) ([], s)

/-- One resolved attack of the acting entry on the chosen target index:
damage application (health floored at 0, death flag on reaching 0), the
write-back through the target reference, and the appended event. Returns
the updated teams, the stream state after the three damage draws, and the
event. -/
def applyAttack (teams : BattleTeams) (round : ℕ) (e : TurnEntry) (tIdx : ℕ)
    (s1 : ℕ) : BattleTeams × ℕ × BattleEvent :=
  let fighter := getFighter teams e
  let target := (opponentsOf teams e.team).getD tIdx default
  let beforeHp := target.hp
  let dc := computeDamage s1 fighter target
  let damage := dc.1.1
  let isCrit := dc.1.2
  let newHp := max 0 (target.hp - damage)
  let target1 : InternalFighter :=
    { target with hp := newHp, alive := if newHp = 0 then false else target.alive }
  let teams1 := setFighter teams (opponentTag e.team) tIdx target1
  let ev : BattleEvent :=
    { round := round, actorTeam := e.team,
      actor := { id := fighter.base.id, name := fighter.base.name,
                 hpBefore := fighter.hp, hpAfter := fighter.hp },
      target := { id := target.base.id, name := target.base.name,
                  hpBefore := beforeHp, hpAfter := newHp },
      damage := damage, isCrit := isCrit,
      description := fighter.base.name ++ " from Team " ++ tagStr e.team ++
        " hits " ++ target.base.name ++ " for " ++ toString damage ++
        " damage" ++ (if isCrit then " (CRIT)" else "") ++ "." }
  (teams1, dc.2, ev)

/-- Turn execution for the sorted turn order of one round. Returns the
updated teams, stream state and log. -/
def runTurns : List TurnEntry → ℕ → BattleTeams → ℕ → List BattleEvent →
    BattleTeams × ℕ × List BattleEvent
  | [], _, teams, s, log => (teams, s, log)
  | e :: rest, round, teams, s, log =>
    let fighter := getFighter teams e
    if fighter.alive = false then runTurns rest round teams s log
    else
      let opponents := opponentsOf teams e.team
      if allDead opponents then (teams, s, log)
      else
        match chooseTarget s opponents with
        | (none, s1) => runTurns rest round teams s1 log
        | (some tIdx, s1) =>
          let step := applyAttack teams round e tIdx s1
          runTurns rest round step.1 step.2.1 (log ++ [step.2.2])

/-- The round loop, with the remaining iteration budget as fuel; the fuel
for a fresh run is maxRounds (taken at 0 when nonpositive), matching the
while guard round < maxRounds for the counter starting at 0. Returns the
final round counter, teams, stream state and log. -/
def runRounds : ℕ → ℕ → BattleTeams → ℕ → List BattleEvent →
    ℕ × BattleTeams × ℕ × List BattleEvent
  | 0, round, teams, s, log => (round, teams, s, log)
  | fuel + 1, round, teams, s, log =>
    let round1 := round + 1
    let entries := livingEntries teams
    if entries.length = 0 then (round1, teams, s, log)
    else
      let sorted := sortEntries teams entries s
      let step := runTurns sorted.1 round1 teams sorted.2 log
      if allDead step.1.teamA || allDead step.1.teamB then
        (round1, step.1, step.2.1, step.2.2)
      else
        runRounds fuel round1 step.1 step.2.1 step.2.2

/-! ## Trace commitment: SHA-256 (the node crypto sha256 used by
computeLogHash), per FIPS 180-4, over byte lists. -/

/-- Rotate a 32-bit word right. -/
def rotr32 (x n : ℕ) : ℕ := ((x >>> n) ||| (x <<< (32 - n))) % 2 ^ 32

/-- SHA-256 Ch function. -/
def shaCh (e f g : ℕ) : ℕ := (e &&& f) ^^^ ((0xFFFFFFFF ^^^ e) &&& g)

/-- SHA-256 Maj function. -/
def shaMaj (a b c : ℕ) : ℕ := (a &&& b) ^^^ (a &&& c) ^^^ (b &&& c)

/-- SHA-256 big Sigma 0. -/
def bigSigma0 (x : ℕ) : ℕ := rotr32 x 2 ^^^ rotr32 x 13 ^^^ rotr32 x 22

/-- SHA-256 big Sigma 1. -/
def bigSigma1 (x : ℕ) : ℕ := rotr32 x 6 ^^^ rotr32 x 11 ^^^ rotr32 x 25

/-- SHA-256 small sigma 0. -/
def smallSigma0 (x : ℕ) : ℕ := rotr32 x 7 ^^^ rotr32 x 18 ^^^ (x >>> 3)

/-- SHA-256 small sigma 1. -/
def smallSigma1 (x : ℕ) : ℕ := rotr32 x 17 ^^^ rotr32 x 19 ^^^ (x >>> 10)

/-- SHA-256 round constants. -/
def K256 : List ℕ :=
  [1116352408, 1899447441, 3049323471, 3921009573, 961987163,
   1508970993, 2453635748, 2870763221, 3624381080, 310598401,
   607225278, 1426881987, 1925078388, 2162078206, 2614888103,
   3248222580, 3835390401, 4022224774, 264347078, 604807628,
   770255983, 1249150122, 1555081692, 1996064986, 2554220882,
   2821834349, 2952996808, 3210313671, 3336571891, 3584528711,
   113926993, 338241895, 666307205, 773529912, 1294757372,
   1396182291, 1695183700, 1986661051, 2177026350, 2456956037,
   2730485921, 2820302411, 3259730800, 3345764771, 3516065817,
   3600352804, 4094571909, 275423344, 430227734, 506948616,
   659060556, 883997877, 958139571, 1322822218, 1537002063,
   1747873779, 1955562222, 2024104815, 2227730452, 2361852424,
   2428436474, 2756734187, 3204031479, 3329325298]

/-- The eight-word SHA-256 chaining state. -/
structure Hash8 where
  h0 : ℕ
  h1 : ℕ
  h2 : ℕ
  h3 : ℕ
  h4 : ℕ
  h5 : ℕ
  h6 : ℕ
  h7 : ℕ
deriving DecidableEq, Repr

/-- SHA-256 initial hash value. -/
def initH : Hash8 :=
  ⟨1779033703, 3144134277, 1013904242, 2773480762,
   1359893119, 2600822924, 528734635, 1541459225⟩

/-- Message schedule of one 64-byte block: sixteen big-endian words then
48 extension words. -/
def scheduleW (block : List ℕ) : List ℕ :=
  let init := (List.range 16).map (fun i =>
    ((block.getD (4 * i) 0) <<< 24) + ((block.getD (4 * i + 1) 0) <<< 16) +
      ((block.getD (4 * i + 2) 0) <<< 8) + block.getD (4 * i + 3) 0)
  (List.range 48).foldl (fun w _ =>
    w ++ [(smallSigma1 (w.getD (w.length - 2) 0) + w.getD (w.length - 7) 0 +
      smallSigma0 (w.getD (w.length - 15) 0) + w.getD (w.length - 16) 0) % 2 ^ 32]) init

/-- Compression of one scheduled block into the chaining state. -/
def compressWords (st : Hash8) (w : List ℕ) : Hash8 :=
  let fin := (List.range 64).foldl (fun (v : Hash8) t =>
    let T1 := (v.h7 + bigSigma1 v.h4 + shaCh v.h4 v.h5 v.h6 +
      K256.getD t 0 + w.getD t 0) % 2 ^ 32
    let T2 := (bigSigma0 v.h0 + shaMaj v.h0 v.h1 v.h2) % 2 ^ 32
    ⟨(T1 + T2) % 2 ^ 32, v.h0, v.h1, v.h2, (v.h3 + T1) % 2 ^ 32, v.h4, v.h5, v.h6⟩) st
  ⟨(st.h0 + fin.h0) % 2 ^ 32, (st.h1 + fin.h1) % 2 ^ 32, (st.h2 + fin.h2) % 2 ^ 32,
   (st.h3 + fin.h3) % 2 ^ 32, (st.h4 + fin.h4) % 2 ^ 32, (st.h5 + fin.h5) % 2 ^ 32,
   (st.h6 + fin.h6) % 2 ^ 32, (st.h7 + fin.h7) % 2 ^ 32⟩

/-- Number of zero padding bytes after the 0x80 byte. -/
def padZeros (len : ℕ) : ℕ := (119 - len % 64) % 64

/-- The eight-byte big-endian bit length trailer. -/
def lenBytes (len : ℕ) : List ℕ :=
  [(len * 8 >>> 56) % 256, (len * 8 >>> 48) % 256, (len * 8 >>> 40) % 256,
   (len * 8 >>> 32) % 256, (len * 8 >>> 24) % 256, (len * 8 >>> 16) % 256,
   (len * 8 >>> 8) % 256, (len * 8) % 256]

/-- SHA-256 message padding. -/
def padMessage (msg : List ℕ) : List ℕ :=
  msg ++ [0x80] ++ List.replicate (padZeros msg.length) 0 ++ lenBytes msg.length

/-- Split into 64-byte blocks. -/
def chunks64 : List ℕ → List (List ℕ)
  | [] => []
  | x :: xs => (x :: xs).take 64 :: chunks64 ((x :: xs).drop 64)
termination_by l => l.length
decreasing_by simp [List.length_drop]; omega

/-- SHA-256 of a byte list, as the final chaining state. -/
def sha256 (msg : List ℕ) : Hash8 :=
  (chunks64 (padMessage msg)).foldl (fun st b => compressWords st (scheduleW b)) initH

/-- Whether a character is a lowercase hexadecimal digit. -/
def isLowerHexDigit (c : Char) : Bool :=
  decide ((48 ≤ c.toNat ∧ c.toNat ≤ 57) ∨ (97 ≤ c.toNat ∧ c.toNat ≤ 102))

/-- One lowercase hexadecimal digit. -/
def hexChar (n : ℕ) : Char := Nat.digitChar (n % 16)

/-- Fixed-width lowercase hexadecimal rendering of a 32-bit word. -/
def wordHex (w : ℕ) : List Char :=
  [hexChar (w >>> 28), hexChar (w >>> 24), hexChar (w >>> 20), hexChar (w >>> 16),
   hexChar (w >>> 12), hexChar (w >>> 8), hexChar (w >>> 4), hexChar w]

/-- digest("hex"): lowercase hexadecimal of the eight chaining words. -/
def sha256Hex (msg : List ℕ) : String :=
  String.mk (wordHex (sha256 msg).h0 ++ wordHex (sha256 msg).h1 ++
    wordHex (sha256 msg).h2 ++ wordHex (sha256 msg).h3 ++ wordHex (sha256 msg).h4 ++
    wordHex (sha256 msg).h5 ++ wordHex (sha256 msg).h6 ++ wordHex (sha256 msg).h7)

/-- UTF-8 encoding of one scalar value. -/
def utf8Char (c : Char) : List ℕ :=
  let n := c.toNat
  if n < 0x80 then [n]
  else if n < 0x800 then [0xC0 ||| (n >>> 6), 0x80 ||| (n &&& 0x3F)]
  else if n < 0x10000 then
    [0xE0 ||| (n >>> 12), 0x80 ||| ((n >>> 6) &&& 0x3F), 0x80 ||| (n &&& 0x3F)]
  else
    [0xF0 ||| (n >>> 18), 0x80 ||| ((n >>> 12) &&& 0x3F),
     0x80 ||| ((n >>> 6) &&& 0x3F), 0x80 ||| (n &&& 0x3F)]

/-- UTF-8 bytes of a string (the "utf8" input encoding of update). -/
def utf8Bytes (s : String) : List ℕ :=
  s.data.foldr (fun c acc => utf8Char c ++ acc) []

/-! ## Canonical serialization (JSON.stringify of the log) -/

/-- JSON.stringify escaping of one character inside a string literal. -/
def escapeChar (c : Char) : String :=
  if c = Char.ofNat 34 then "\\\""
  else if c = Char.ofNat 92 then "\\\\"
  else if c.toNat = 8 then "\\b"
  else if c.toNat = 9 then "\\t"
  else if c.toNat = 10 then "\\n"
  else if c.toNat = 12 then "\\f"
  else if c.toNat = 13 then "\\r"
  else if c.toNat < 32 then
    "\\u00" ++ String.mk [hexChar (c.toNat >>> 4), hexChar c.toNat]
  else String.singleton c

/-- JSON string literal. -/
def jsonString (s : String) : String :=
  "\"" ++ s.data.foldr (fun c acc => escapeChar c ++ acc) "" ++ "\""

/-- JSON rendering of an integer-valued number (the only numbers the log
holds), matching the ToString conversion of integral doubles. -/
def jsonInt (i : ℤ) : String := toString i

/-- JSON rendering of a participant snapshot, in object literal field
order. -/
def jsonSnapshot (p : CharacterSnapshot) : String :=
  "\x7b\"id\":" ++ jsonString p.id ++ ",\"name\":" ++ jsonString p.name ++
    ",\"hpBefore\":" ++ jsonInt p.hpBefore ++ ",\"hpAfter\":" ++ jsonInt p.hpAfter ++ "\x7d"

/-- JSON rendering of one battle event, in object literal field order. -/
def jsonEvent (ev : BattleEvent) : String :=
  "\x7b\"round\":" ++ jsonInt (ev.round : ℤ) ++
    ",\"actorTeam\":" ++ jsonString (tagStr ev.actorTeam) ++
    ",\"actor\":" ++ jsonSnapshot ev.actor ++
    ",\"target\":" ++ jsonSnapshot ev.target ++
    ",\"damage\":" ++ jsonInt ev.damage ++
    ",\"isCrit\":" ++ (if ev.isCrit then "true" else "false") ++
    ",\"description\":" ++ jsonString ev.description ++ "\x7d"

/-- JSON.stringify(log): the canonical array encoding. -/
def serializeLog (log : List BattleEvent) : String :=
  "[" ++ String.intercalate "," (log.map jsonEvent) ++ "]"

/-- computeLogHash: SHA-256 over the UTF-8 bytes of the canonical
serialization, in lowercase hexadecimal. -/
def computeLogHash (log : List BattleEvent) : String :=
  sha256Hex (utf8Bytes (serializeLog log))

/-! ## Simulation facade (simulateBattle) -/

/-- Total remaining health of a team, the reduce over fighter hp. -/
def teamHp (team : List InternalFighter) : ℤ :=
  team.foldl (fun acc f => acc + f.hp) 0

/-- Winner resolution on the final teams state, exactly the branch
structure of the source. -/
def resolveWinner (teams : BattleTeams) : Winner :=
  let teamADeadFinal := allDead teams.teamA
  let teamBDeadFinal := allDead teams.teamB
  if teamADeadFinal && !teamBDeadFinal then Winner.B
  else if !teamADeadFinal && teamBDeadFinal then Winner.A
  else
    let hpA := teamHp teams.teamA
    let hpB := teamHp teams.teamB
    if hpA > hpB then Winner.A
    else if hpB > hpA then Winner.B
    else Winner.DRAW

/-- simulateBattle: seed the generator, clone the teams, run the round
loop, resolve the winner, snapshot the final state, hash the log. -/
def simulateBattle (teamA teamB : List Character) (config : BattleConfig) :
    BattleResult :=
  let s0 := seedState config.seed
  let teams := cloneTeams teamA teamB
  let run := runRounds config.maxRounds.toNat 0 teams s0 []
  let rounds := run.1
  let finalTeams := run.2.1
  let log := run.2.2.2
  { config := config,
    winner := resolveWinner finalTeams,
    rounds := rounds,
    log := log,
    finalState := { teamA := finalTeams.teamA.map snapshotFighter,
                    teamB := finalTeams.teamB.map snapshotFighter },
    logHash := computeLogHash log }

/-! ## Stream generator bounds -/

lemma shiftRight_le_self (x n : ℕ) : x >>> n ≤ x := by
  rw [Nat.shiftRight_eq_div_pow]; exact Nat.div_le_self _ _

lemma mulberry32Step_fst_lt (s : ℕ) : (mulberry32Step s).1 < 2 ^ 32 := by
  have h32 : (0 : ℕ) < 2 ^ 32 := by positivity
  unfold mulberry32Step imul32
  dsimp only
  apply Nat.xor_lt_two_pow
  · apply Nat.xor_lt_two_pow
    · exact Nat.mod_lt _ h32
    · exact Nat.mod_lt _ h32
  · refine lt_of_le_of_lt (shiftRight_le_self _ _) ?_
    exact Nat.xor_lt_two_pow (Nat.mod_lt _ h32) (Nat.mod_lt _ h32)

lemma rngNext_nonneg (s : ℕ) : 0 ≤ (rngNext s).1 := by
  unfold rngNext
  positivity

lemma rngNext_lt_one (s : ℕ) : (rngNext s).1 < 1 := by
  unfold rngNext
  rw [div_lt_one (by norm_num)]
  exact_mod_cast mulberry32Step_fst_lt s

lemma rngNextInt_of_nonpos (s : ℕ) (n : ℤ) (h : n ≤ 0) : rngNextInt s n = (0, s) := by
  simp [rngNextInt, h]

lemma rngNextInt_nonneg (s : ℕ) (n : ℤ) : 0 ≤ (rngNextInt s n).1 := by
  unfold rngNextInt
  split
  · simp
  · next h =>
    simp only
    refine Int.floor_nonneg.mpr (mul_nonneg (rngNext_nonneg s) ?_)
    exact_mod_cast le_of_lt (lt_of_not_le h)

lemma rngNextInt_lt (s : ℕ) (n : ℤ) (h : 1 ≤ n) : (rngNextInt s n).1 < n := by
  unfold rngNextInt
  rw [if_neg (by omega)]
  simp only
  refine Int.floor_lt.mpr ?_
  have hn : (0 : ℚ) < (n : ℚ) := by exact_mod_cast lt_of_lt_of_le zero_lt_one h
  calc (rngNext s).1 * (n : ℚ) < 1 * (n : ℚ) :=
        mul_lt_mul_of_pos_right (rngNext_lt_one s) hn
    _ = (n : ℚ) := one_mul _

lemma allDead_iff (team : List InternalFighter) :
    allDead team = true ↔ ∀ f ∈ team, f.alive = false := by
  simp [allDead]

lemma livingIdx_eq_nil_of_allDead (team : List InternalFighter)
    (h : allDead team = true) : livingIdx team = [] := by
  rw [allDead_iff] at h
  refine List.filter_eq_nil_iff.mpr ?_
  intro i hi
  rw [List.mem_range] at hi
  have hmem : team.getD i default ∈ team := by
    rw [List.getD_eq_getElem team default hi]; exact List.getElem_mem hi
  simpa [List.getD] using h _ hmem

lemma chooseTarget_of_allDead (s : ℕ) (opponents : List InternalFighter)
    (h : allDead opponents = true) : chooseTarget s opponents = (none, s) := by
  unfold chooseTarget
  rw [livingIdx_eq_nil_of_allDead opponents h]
  simp

/-- C9: on every stream state, next() lies in [0,1); nextInt(n) lies in
[0,n) for n at least 1 and is 0 without stream consumption for
nonpositive n; target selection over a team with no living fighter yields
no target without stream consumption, and the turn loop treats such a
turn as a no-op: it either stops the round or passes to the next entry
without appending an event. -/
theorem c9_rng_contract (s : ℕ) :
    (0 ≤ (rngNext s).1 ∧ (rngNext s).1 < 1) ∧
    (∀ n : ℤ, 1 ≤ n → 0 ≤ (rngNextInt s n).1 ∧ (rngNextInt s n).1 < n) ∧
    (∀ n : ℤ, n ≤ 0 → rngNextInt s n = (0, s)) ∧
    (∀ opponents : List InternalFighter, allDead opponents = true →
      chooseTarget s opponents = (none, s)) ∧
    (∀ (teams : BattleTeams) (e : TurnEntry) (rest : List TurnEntry)
        (round : ℕ) (log : List BattleEvent),
      allDead (opponentsOf teams e.team) = true →
      runTurns (e :: rest) round teams s log = (teams, s, log) ∨
        runTurns (e :: rest) round teams s log = runTurns rest round teams s log) := by
  refine ⟨⟨rngNext_nonneg s, rngNext_lt_one s⟩,
    fun n hn => ⟨rngNextInt_nonneg s n, rngNextInt_lt s n hn⟩,
    fun n hn => rngNextInt_of_nonpos s n hn,
    fun opponents h => chooseTarget_of_allDead s opponents h,
    fun teams e rest round log hdead => ?_⟩
  by_cases halive : (getFighter teams e).alive = false
  · right
    simp [runTurns, halive]
  · left
    simp [runTurns, halive, hdead]

/-- Witness for C9 at concrete inputs. -/
theorem c9_rng_contract_witness :
    ((1 : ℤ) ≤ 3 ∧ 0 ≤ (rngNextInt 0 3).1 ∧ (rngNextInt 0 3).1 < 3) ∧
    ((-1 : ℤ) ≤ 0 ∧ rngNextInt 0 (-1) = (0, 0)) ∧
    (allDead [default] = true ∧ chooseTarget 0 [default] = (none, 0)) :=
  ⟨⟨by norm_num, ((c9_rng_contract 0).2.1 3 (by norm_num)).1,
      ((c9_rng_contract 0).2.1 3 (by norm_num)).2⟩,
   ⟨by norm_num, (c9_rng_contract 0).2.2.1 (-1) (by norm_num)⟩,
   ⟨by decide, (c9_rng_contract 0).2.2.2.1 [default] (by decide)⟩⟩

/-! ## Combat resolver -/

/-- C3: computeDamage consumes exactly three stream draws in the fixed
order skill roll, crit roll, variance roll; the damage equals the clamped
floored product of the claim; the crit flag is decided by the second
draw; the fighters are passed by value and stay untouched. -/
theorem c3_computeDamage_spec (s : ℕ) (attacker defender : InternalFighter) :
    (computeDamage s attacker defender).2 = (rngNext (rngNext (rngNext s).2).2).2 ∧
    ((computeDamage s attacker defender).1.2 = true ↔
      (rngNext (rngNext s).2).1 < attacker.base.critChance) ∧
    (computeDamage s attacker defender).1.1 =
      max 1 ⌊(max 1 ((attacker.base.attack : ℚ) -
            (defender.base.defense : ℚ) * (1 / 2))) *
          (if (rngNext s).1 < 35 / 100 then attacker.base.skillMultiplier else 1) *
          (9 / 10 + (rngNext (rngNext (rngNext s).2).2).1 * (2 / 10)) *
          (if (rngNext (rngNext s).2).1 < attacker.base.critChance then
            (17 : ℚ) / 10 else 1)⌋ := by
  refine ⟨rfl, by simp [computeDamage], ?_⟩
  show max 1 ⌊_⌋ = max 1 ⌊_⌋
  congr 2
  split
  · rfl
  · exact (mul_one _).symm

/-! ## Determinism of the facade -/

/-- C1: two executions of simulateBattle on identical templates, seed and
positive maxRounds produce identical logs, event for event, and identical
digests; the facade is a pure function of its inputs. -/
theorem c1_simulateBattle_deterministic (teamA teamB : List Character)
    (config : BattleConfig) (hpos : 0 < config.maxRounds)
    (r1 r2 : BattleResult)
    (h1 : r1 = simulateBattle teamA teamB config)
    (h2 : r2 = simulateBattle teamA teamB config) :
    r1.log = r2.log ∧ r1.logHash = r2.logHash := by
  subst h1; subst h2; exact ⟨rfl, rfl⟩

/-- Witness for C1 at a concrete input. -/
theorem c1_simulateBattle_deterministic_witness :
    0 < (BattleConfig.mk "" 1).maxRounds ∧
    ((simulateBattle [] [] (BattleConfig.mk "" 1)).log =
        (simulateBattle [] [] (BattleConfig.mk "" 1)).log ∧
      (simulateBattle [] [] (BattleConfig.mk "" 1)).logHash =
        (simulateBattle [] [] (BattleConfig.mk "" 1)).logHash) :=
  ⟨by norm_num,
   c1_simulateBattle_deterministic [] [] (BattleConfig.mk "" 1) (by norm_num) _ _ rfl rfl⟩

/-! ## Digest binding -/

lemma hexChar_isLowerHex (n : ℕ) : isLowerHexDigit (hexChar n) = true := by
  unfold hexChar
  exact (by decide : ∀ k, k < 16 → isLowerHexDigit (Nat.digitChar k) = true)
    (n % 16) (Nat.mod_lt n (by norm_num))

lemma wordHex_subset (w : ℕ) : ∀ c ∈ wordHex w, isLowerHexDigit c = true := by
  intro c hc
  simp only [wordHex, List.mem_cons, List.not_mem_nil, or_false] at hc
  rcases hc with h | h | h | h | h | h | h | h <;> exact h ▸ hexChar_isLowerHex _

lemma sha256Hex_length (msg : List ℕ) : (sha256Hex msg).length = 64 := by
  show (String.mk _).length = 64
  simp [String.length, wordHex]

lemma sha256Hex_chars (msg : List ℕ) :
    ∀ c ∈ (sha256Hex msg).data, isLowerHexDigit c = true := by
  intro c hc
  have hc2 : c ∈ wordHex (sha256 msg).h0 ++ wordHex (sha256 msg).h1 ++
      wordHex (sha256 msg).h2 ++ wordHex (sha256 msg).h3 ++ wordHex (sha256 msg).h4 ++
      wordHex (sha256 msg).h5 ++ wordHex (sha256 msg).h6 ++ wordHex (sha256 msg).h7 := by
    simpa [sha256Hex, List.append_assoc] using hc
  simp only [List.mem_append] at hc2
  rcases hc2 with ((((((h | h) | h) | h) | h) | h) | h) | h <;>
    exact wordHex_subset _ _ h

/-- C4: re-serializing and re-hashing the returned log with the canonical
encoding reproduces the stored digest, and the digest is a 64-character
lowercase hexadecimal string. -/
theorem c4_digest_binding (teamA teamB : List Character) (config : BattleConfig) :
    computeLogHash (simulateBattle teamA teamB config).log =
      (simulateBattle teamA teamB config).logHash ∧
    (simulateBattle teamA teamB config).logHash.length = 64 ∧
    ∀ c ∈ (simulateBattle teamA teamB config).logHash.data,
      isLowerHexDigit c = true := by
  refine ⟨rfl, ?_, ?_⟩
  · exact sha256Hex_length _
  · exact sha256Hex_chars _

/-! ## Winner resolution -/

/-- Total remaining health over final snapshots. -/
def hpSumStates (l : List FighterState) : ℤ :=
  l.foldl (fun acc f => acc + f.hp) 0

/-- Whether every fighter of a final snapshot list is dead. -/
def allDeadStates (l : List FighterState) : Bool :=
  l.all (fun f => !f.alive)

/-- Modelled from the claim wording of winner resolution, over the final
snapshots: if exactly one team has all fighters dead the other wins,
otherwise the strictly higher total remaining health wins and exact
equality is a draw. -/
def resolveWinnerSpec (fsA fsB : List FighterState) : Winner :=
  if allDeadStates fsA && !allDeadStates fsB then Winner.B
  else if !allDeadStates fsA && allDeadStates fsB then Winner.A
  else if hpSumStates fsA > hpSumStates fsB then Winner.A
  else if hpSumStates fsB > hpSumStates fsA then Winner.B
  else Winner.DRAW

lemma allDeadStates_map (l : List InternalFighter) :
    allDeadStates (l.map snapshotFighter) = allDead l := by
  unfold allDeadStates allDead
  induction l with
  | nil => rfl
  | cons x xs ih => simp [snapshotFighter] at ih ⊢; rw [ih]

lemma hpSumStates_map (l : List InternalFighter) :
    hpSumStates (l.map snapshotFighter) = teamHp l := by
  unfold hpSumStates teamHp
  rw [List.foldl_map]; rfl

lemma resolveWinner_eq_spec (teams : BattleTeams) :
    resolveWinner teams =
      resolveWinnerSpec (teams.teamA.map snapshotFighter)
        (teams.teamB.map snapshotFighter) := by
  unfold resolveWinner resolveWinnerSpec
  rw [allDeadStates_map, allDeadStates_map, hpSumStates_map, hpSumStates_map]

/-- C2: exactly one of the three winner values is reported, and it is the
one the resolution rule derives from the final health snapshots. -/
theorem c2_winner_consistent (teamA teamB : List Character) (config : BattleConfig) :
    ((simulateBattle teamA teamB config).winner = Winner.A ∨
      (simulateBattle teamA teamB config).winner = Winner.B ∨
      (simulateBattle teamA teamB config).winner = Winner.DRAW) ∧
    (simulateBattle teamA teamB config).winner =
      resolveWinnerSpec (simulateBattle teamA teamB config).finalState.teamA
        (simulateBattle teamA teamB config).finalState.teamB := by
  constructor
  · cases (simulateBattle teamA teamB config).winner <;> simp
  · exact resolveWinner_eq_spec _

/-! ## Empty rosters and the nonpositive round budget -/

lemma cloneTeams_nil : cloneTeams [] [] = { teamA := [], teamB := [] } := rfl

lemma livingEntries_nil : livingEntries { teamA := [], teamB := [] } = [] := rfl

/-- C6 counterexample: with both teams empty and one permitted round, the
loop body starts, increments the counter, and only then breaks, so the
returned rounds count is 1, not 0. -/
theorem c6_empty_teams_counterexample :
    (simulateBattle [] [] (BattleConfig.mk "" 1)).rounds = 1 ∧
    ¬ (simulateBattle [] [] (BattleConfig.mk "" 1)).rounds = 0 := by
  constructor <;> decide

/-- C6 amended: with both teams empty no turn executes, the log is empty
and the winner is a draw; the returned rounds count is 1 when maxRounds is
positive (the counter increments once before the empty-roster break) and 0
otherwise. -/
theorem c6_empty_teams_amended (seed : String) (maxRounds : ℤ) :
    (simulateBattle [] [] (BattleConfig.mk seed maxRounds)).log = [] ∧
    (simulateBattle [] [] (BattleConfig.mk seed maxRounds)).winner = Winner.DRAW ∧
    (simulateBattle [] [] (BattleConfig.mk seed maxRounds)).rounds =
      if 0 < maxRounds then 1 else 0 := by
  unfold simulateBattle
  rw [cloneTeams_nil]
  rcases hn : maxRounds.toNat with _ | k
  · have hle : ¬ 0 < maxRounds := by omega
    simp [runRounds, resolveWinner, allDead, teamHp, hle]
  · have hpos : 0 < maxRounds := by
      by_contra hcon
      rw [Int.toNat_of_nonpos (by omega)] at hn
      exact Nat.noConfusion hn
    simp [runRounds, livingEntries_nil, resolveWinner, allDead, teamHp, hpos]

/-- Summed initial health of a roster (total maxHp). -/
def initialHp (roster : List Character) : ℤ :=
  roster.foldl (fun acc c => acc + c.maxHp) 0

/-- A roster entry whose maximum health is zero. -/
def zeroHpChar : Character :=
  { id := "z", name := "Z", maxHp := 0, attack := 0, defense := 0, speed := 0,
    critChance := 0, skillMultiplier := 0 }

/-- C10 counterexample: with a nonpositive round budget, an empty team A
and a team B whose only fighter has zero maximum health, both summed
initial health totals are 0, yet the winner is team B (its fighter starts
with the alive flag set while the empty team counts as fully dead), not
the draw the hp comparison would give. -/
theorem c10_nonpositive_rounds_counterexample :
    initialHp [] = initialHp [zeroHpChar] ∧
    (simulateBattle [] [zeroHpChar] (BattleConfig.mk "" 0)).winner = Winner.B ∧
    ¬ (simulateBattle [] [zeroHpChar] (BattleConfig.mk "" 0)).winner = Winner.DRAW := by
  refine ⟨by decide, by decide, by decide⟩

lemma allDead_clone (roster : List Character) :
    allDead (roster.map (fun c =>
      ({ base := c, hp := c.maxHp, alive := true } : InternalFighter))) =
      roster.isEmpty := by
  cases roster <;> simp [allDead]

lemma teamHp_clone (roster : List Character) :
    teamHp (roster.map (fun c =>
      ({ base := c, hp := c.maxHp, alive := true } : InternalFighter))) =
      initialHp roster := by
  unfold teamHp initialHp
  rw [List.foldl_map]

/-- C10 amended: with a nonpositive round budget the loop runs zero
iterations, the rounds count is 0, the log is empty and the digest is the
hash of the empty serialization; the winner is the nonempty team when
exactly one team is empty (an empty team counts as fully dead while every
fighter of a nonempty team starts alive), and otherwise the higher summed
initial health wins with equality a draw. -/
theorem c10_nonpositive_rounds_amended (teamA teamB : List Character)
    (seed : String) (maxRounds : ℤ) (hle : maxRounds ≤ 0) :
    (simulateBattle teamA teamB (BattleConfig.mk seed maxRounds)).rounds = 0 ∧
    (simulateBattle teamA teamB (BattleConfig.mk seed maxRounds)).log = [] ∧
    (simulateBattle teamA teamB (BattleConfig.mk seed maxRounds)).logHash =
      computeLogHash [] ∧
    (simulateBattle teamA teamB (BattleConfig.mk seed maxRounds)).winner =
      (if teamA.isEmpty && !teamB.isEmpty then Winner.B
       else if !teamA.isEmpty && teamB.isEmpty then Winner.A
       else if initialHp teamA > initialHp teamB then Winner.A
       else if initialHp teamB > initialHp teamA then Winner.B
       else Winner.DRAW) := by
  unfold simulateBattle
  have hn : maxRounds.toNat = 0 := Int.toNat_of_nonpos hle
  rw [hn]
  refine ⟨rfl, rfl, rfl, ?_⟩
  show resolveWinner (cloneTeams teamA teamB) = _
  unfold resolveWinner cloneTeams
  rw [allDead_clone, allDead_clone, teamHp_clone, teamHp_clone]

/-- Witness for the amended C10 at a concrete input. -/
theorem c10_nonpositive_rounds_amended_witness :
    (-3 : ℤ) ≤ 0 ∧
    ((simulateBattle [zeroHpChar] [] (BattleConfig.mk "w" (-3))).rounds = 0 ∧
      (simulateBattle [zeroHpChar] [] (BattleConfig.mk "w" (-3))).log = [] ∧
      (simulateBattle [zeroHpChar] [] (BattleConfig.mk "w" (-3))).logHash =
        computeLogHash [] ∧
      (simulateBattle [zeroHpChar] [] (BattleConfig.mk "w" (-3))).winner =
        (if List.isEmpty [zeroHpChar] && !List.isEmpty ([] : List Character) then Winner.B
         else if !List.isEmpty [zeroHpChar] && List.isEmpty ([] : List Character) then Winner.A
         else if initialHp [zeroHpChar] > initialHp [] then Winner.A
         else if initialHp [] > initialHp [zeroHpChar] then Winner.B
         else Winner.DRAW)) :=
  ⟨by norm_num,
   c10_nonpositive_rounds_amended [zeroHpChar] [] "w" (-3) (by norm_num)⟩

/-! ## Turn order resolution -/

lemma range_filter_getD {α : Type} [Inhabited α] (l : List α) (p : α → Bool) :
    ((List.range l.length).filter (fun i => p (l.getD i default))).map
        (fun i => l.getD i default) = l.filter p := by
  induction l with
  | nil => rfl
  | cons x xs ih =>
    rw [List.length_cons, List.range_succ_eq_map, List.filter_cons]
    have hfil : (List.filter (fun i => p ((x :: xs).getD i default))
        (List.map Nat.succ (List.range xs.length))) =
        List.map Nat.succ (List.filter (fun i => p (xs.getD i default))
          (List.range xs.length)) := by
      rw [List.filter_map]
      rfl
    have hmap : (List.map Nat.succ (List.filter (fun i => p (xs.getD i default))
          (List.range xs.length))).map (fun i => (x :: xs).getD i default) =
        ((List.range xs.length).filter (fun i => p (xs.getD i default))).map
          (fun i => xs.getD i default) := by
      rw [List.map_map]
      rfl
    by_cases hx : p x
    · rw [if_pos (by simpa using hx), List.filter_cons_of_pos (by simpa using hx)]
      rw [List.map_cons, hfil, hmap, ih]
      rfl
    · rw [if_neg (by simpa using hx), List.filter_cons_of_neg (by simpa using hx)]
      rw [hfil, hmap, ih]

lemma livingEntries_map_getFighter (teams : BattleTeams) :
    (livingEntries teams).map (getFighter teams) =
      teams.teamA.filter (fun f => f.alive) ++ teams.teamB.filter (fun f => f.alive) := by
  unfold livingEntries
  rw [List.map_append, List.map_map, List.map_map]
  have hA : (livingIdx teams.teamA).map
      (getFighter teams ∘ fun i => ({ team := .A, idx := i } : TurnEntry)) =
      teams.teamA.filter (fun f => f.alive) := by
    rw [show (getFighter teams ∘ fun i => ({ team := .A, idx := i } : TurnEntry)) =
        fun i => teams.teamA.getD i default from rfl]
    exact range_filter_getD teams.teamA (fun f => f.alive)
  have hB : (livingIdx teams.teamB).map
      (getFighter teams ∘ fun i => ({ team := .B, idx := i } : TurnEntry)) =
      teams.teamB.filter (fun f => f.alive) := by
    rw [show (getFighter teams ∘ fun i => ({ team := .B, idx := i } : TurnEntry)) =
        fun i => teams.teamB.getD i default from rfl]
    exact range_filter_getD teams.teamB (fun f => f.alive)
  rw [hA, hB]

/-- Insertion on a tie-free prefix, with the comparator already evaluated
purely: the element goes before the first strictly slower element. -/
def insertPure (teams : BattleTeams) (x : TurnEntry) : List TurnEntry → List TurnEntry
  | [] => [x]
  | y :: ys =>
    if speedOf teams y < speedOf teams x then x :: y :: ys
    else y :: insertPure teams x ys

/-- Pure insertion sort by descending speed. -/
def sortPure (teams : BattleTeams) (l : List TurnEntry) : List TurnEntry :=
  l.foldl (fun acc x => insertPure teams x acc) []

lemma cmpEntries_of_ne (teams : BattleTeams) (s : ℕ) (x y : TurnEntry)
    (h : speedOf teams x ≠ speedOf teams y) :
    cmpEntries teams s x y = (((speedOf teams y - speedOf teams x : ℤ) : ℚ), s) := by
  simp [cmpEntries, h]

lemma cmpEntries_of_eq (teams : BattleTeams) (s : ℕ) (x y : TurnEntry)
    (h : speedOf teams x = speedOf teams y) :
    cmpEntries teams s x y =
      ((rngNext (rngNext s).2).1 - (rngNext s).1, (rngNext (rngNext s).2).2) := by
  simp [cmpEntries, h]

lemma insertEntry_of_distinct (teams : BattleTeams) (x : TurnEntry)
    (ys : List TurnEntry) (s : ℕ)
    (h : ∀ y ∈ ys, speedOf teams x ≠ speedOf teams y) :
    insertEntry teams x ys s = (insertPure teams x ys, s) := by
  induction ys with
  | nil => rfl
  | cons y ys ih =>
    have hxy : speedOf teams x ≠ speedOf teams y := h y (by simp)
    have hcmp := cmpEntries_of_ne teams s x y hxy
    unfold insertEntry insertPure
    rw [hcmp]
    simp only
    by_cases hlt : speedOf teams y < speedOf teams x
    · rw [if_pos (by exact_mod_cast sub_neg.mpr (by exact_mod_cast hlt)),
        if_pos hlt]
    · rw [if_neg (by
        intro hcon
        exact hlt (by exact_mod_cast sub_neg.mp (by exact_mod_cast hcon))),
        if_neg hlt]
      rw [ih (fun y hy => h y (by simp [hy]))]

lemma insertPure_perm (teams : BattleTeams) (x : TurnEntry) (ys : List TurnEntry) :
    (insertPure teams x ys).Perm (x :: ys) := by
  induction ys with
  | nil => exact List.Perm.refl _
  | cons y ys ih =>
    unfold insertPure
    by_cases hlt : speedOf teams y < speedOf teams x
    · rw [if_pos hlt]
    · rw [if_neg hlt]
      exact (ih.cons y).trans (List.Perm.swap x y ys)

lemma insertPure_mem (teams : BattleTeams) (x : TurnEntry) (ys : List TurnEntry)
    (z : TurnEntry) (hz : z ∈ insertPure teams x ys) : z = x ∨ z ∈ ys := by
  have := (insertPure_perm teams x ys).mem_iff.mp hz
  simpa using this

lemma insertPure_pairwise (teams : BattleTeams) (x : TurnEntry)
    (ys : List TurnEntry)
    (hp : List.Pairwise (fun a b => speedOf teams b < speedOf teams a) ys)
    (hd : ∀ y ∈ ys, speedOf teams x ≠ speedOf teams y) :
    List.Pairwise (fun a b => speedOf teams b < speedOf teams a)
      (insertPure teams x ys) := by
  induction ys with
  | nil => simp [insertPure]
  | cons y ys ih =>
    rw [List.pairwise_cons] at hp
    unfold insertPure
    by_cases hlt : speedOf teams y < speedOf teams x
    · rw [if_pos hlt]
      refine List.Pairwise.cons ?_ (List.pairwise_cons.mpr hp)
      intro z hz
      rcases List.mem_cons.mp hz with h | h
      · exact h ▸ hlt
      · exact lt_trans (hp.1 z h) hlt
    · rw [if_neg hlt]
      have hxy : speedOf teams x < speedOf teams y :=
        lt_of_le_of_ne (le_of_not_lt hlt) (hd y (by simp))
      refine List.Pairwise.cons ?_ (ih hp.2 (fun y hy => hd y (by simp [hy])))
      intro z hz
      rcases insertPure_mem teams x ys z hz with h | h
      · exact h ▸ hxy
      · exact hp.1 z h

lemma sortEntries_go_distinct (teams : BattleTeams) (l : List TurnEntry) :
    ∀ (acc : List TurnEntry) (s : ℕ),
      List.Pairwise (fun a b => speedOf teams a ≠ speedOf teams b) l →
      (∀ x ∈ l, ∀ y ∈ acc, speedOf teams x ≠ speedOf teams y) →
      List.Pairwise (fun a b => speedOf teams b < speedOf teams a) acc →
      l.foldl (fun acc x => insertEntry teams x acc.1 acc.2) (acc, s) =
        (l.foldl (fun acc x => insertPure teams x acc) acc, s) ∧
      List.Pairwise (fun a b => speedOf teams b < speedOf teams a)
        (l.foldl (fun acc x => insertPure teams x acc) acc) ∧
      (l.foldl (fun acc x => insertPure teams x acc) acc).Perm (acc ++ l) := by
  induction l with
  | nil => intro acc s _ _ hacc; exact ⟨rfl, hacc, by simp⟩
  | cons x xs ih =>
    intro acc s hpl hcross hacc
    rw [List.pairwise_cons] at hpl
    have hxacc : ∀ y ∈ acc, speedOf teams x ≠ speedOf teams y :=
      fun y hy => hcross x (by simp) y hy
    have hstep : insertEntry teams x acc s = (insertPure teams x acc, s) :=
      insertEntry_of_distinct teams x acc s hxacc
    have hcross2 : ∀ z ∈ xs, ∀ y ∈ insertPure teams x acc,
        speedOf teams z ≠ speedOf teams y := by
      intro z hz y hy
      rcases insertPure_mem teams x acc y hy with h | h
      · exact h ▸ (hpl.1 z hz).symm
      · exact hcross z (by simp [hz]) y h
    have hacc2 : List.Pairwise (fun a b => speedOf teams b < speedOf teams a)
        (insertPure teams x acc) := insertPure_pairwise teams x acc hacc hxacc
    have ihres := ih (insertPure teams x acc) s hpl.2 hcross2 hacc2
    refine ⟨?_, ihres.2.1, ?_⟩
    · rw [List.foldl_cons, hstep]
      exact ihres.1
    · rw [List.foldl_cons]
      refine ihres.2.2.trans ?_
      refine (List.Perm.append_right xs ((insertPure_perm teams x acc))).trans ?_
      exact List.perm_middle.symm

lemma cmpEntries_neg_imp (teams : BattleTeams) (s : ℕ) (x y : TurnEntry)
    (h : (cmpEntries teams s x y).1 < 0) : speedOf teams y ≤ speedOf teams x := by
  by_cases hsp : speedOf teams x = speedOf teams y
  · exact le_of_eq hsp.symm
  · rw [cmpEntries_of_ne teams s x y hsp] at h
    have h1 : ((speedOf teams y - speedOf teams x : ℤ) : ℚ) < 0 := h
    have : speedOf teams y - speedOf teams x < 0 := by exact_mod_cast h1
    omega

lemma cmpEntries_nonneg_imp (teams : BattleTeams) (s : ℕ) (x y : TurnEntry)
    (h : ¬ (cmpEntries teams s x y).1 < 0) : speedOf teams x ≤ speedOf teams y := by
  by_cases hsp : speedOf teams x = speedOf teams y
  · exact le_of_eq hsp
  · rw [cmpEntries_of_ne teams s x y hsp] at h
    have h2 : (0 : ℚ) ≤ ((speedOf teams y - speedOf teams x : ℤ) : ℚ) :=
      le_of_not_lt h
    have : (0 : ℤ) ≤ speedOf teams y - speedOf teams x := by exact_mod_cast h2
    omega

lemma insertEntry_perm (teams : BattleTeams) (x : TurnEntry)
    (ys : List TurnEntry) (s : ℕ) :
    ((insertEntry teams x ys s).1).Perm (x :: ys) := by
  induction ys generalizing s with
  | nil => exact List.Perm.refl _
  | cons y ys ih =>
    unfold insertEntry
    by_cases hc : (cmpEntries teams s x y).1 < 0
    · rw [if_pos hc]
    · rw [if_neg hc]
      exact ((ih (cmpEntries teams s x y).2).cons y).trans (List.Perm.swap x y ys)

lemma insertEntry_pairwise (teams : BattleTeams) (x : TurnEntry)
    (ys : List TurnEntry) (s : ℕ)
    (hp : List.Pairwise (fun a b => speedOf teams b ≤ speedOf teams a) ys) :
    List.Pairwise (fun a b => speedOf teams b ≤ speedOf teams a)
      ((insertEntry teams x ys s).1) := by
  induction ys generalizing s with
  | nil => simp [insertEntry]
  | cons y ys ih =>
    rw [List.pairwise_cons] at hp
    unfold insertEntry
    by_cases hc : (cmpEntries teams s x y).1 < 0
    · rw [if_pos hc]
      have hxy := cmpEntries_neg_imp teams s x y hc
      refine List.Pairwise.cons ?_ (List.pairwise_cons.mpr hp)
      intro z hz
      rcases List.mem_cons.mp hz with h | h
      · exact h ▸ hxy
      · exact le_trans (hp.1 z h) hxy
    · rw [if_neg hc]
      have hyx := cmpEntries_nonneg_imp teams s x y hc
      refine List.Pairwise.cons ?_ (ih (cmpEntries teams s x y).2 hp.2)
      intro z hz
      have hz2 : z ∈ x :: ys :=
        (insertEntry_perm teams x ys (cmpEntries teams s x y).2).mem_iff.mp hz
      rcases List.mem_cons.mp hz2 with h | h
      · exact h ▸ hyx
      · exact hp.1 z h

lemma sortEntries_go_sorted (teams : BattleTeams) (l : List TurnEntry) :
    ∀ (acc : List TurnEntry) (s : ℕ),
      List.Pairwise (fun a b => speedOf teams b ≤ speedOf teams a) acc →
      List.Pairwise (fun a b => speedOf teams b ≤ speedOf teams a)
        ((l.foldl (fun acc x => insertEntry teams x acc.1 acc.2) (acc, s)).1) ∧
      ((l.foldl (fun acc x => insertEntry teams x acc.1 acc.2) (acc, s)).1).Perm
        (acc ++ l) := by
  induction l with
  | nil => intro acc s hacc; exact ⟨hacc, by simp⟩
  | cons x xs ih =>
    intro acc s hacc
    rw [List.foldl_cons]
    rcases hE : insertEntry teams x acc s with ⟨acc1, s1⟩
    have hpair : List.Pairwise (fun a b => speedOf teams b ≤ speedOf teams a) acc1 := by
      have := insertEntry_pairwise teams x acc s hacc
      rw [hE] at this
      exact this
    have hperm : acc1.Perm (x :: acc) := by
      have := insertEntry_perm teams x acc s
      rw [hE] at this
      exact this
    have hres := ih acc1 s1 hpair
    refine ⟨hres.1, hres.2.trans ?_⟩
    exact ((hperm.append_right xs).trans List.perm_middle.symm)

/-- createDefaultTeams (src/battleEngine.ts): the fixed demo rosters. -/
def createDefaultTeams : List Character × List Character :=
  ([{ id := "knight", name := "Aurora Knight", maxHp := 120, attack := 24,
      defense := 16, speed := 8, critChance := 15 / 100, skillMultiplier := 14 / 10 },
    { id := "archer", name := "Stellar Archer", maxHp := 80, attack := 28,
      defense := 10, speed := 14, critChance := 25 / 100, skillMultiplier := 15 / 10 }],
   [{ id := "orc", name := "Raiku Orc Brute", maxHp := 140, attack := 22,
      defense := 14, speed := 7, critChance := 12 / 100, skillMultiplier := 13 / 10 },
    { id := "mage", name := "Deterministic Mage", maxHp := 70, attack := 30,
      defense := 8, speed := 12, critChance := 20 / 100, skillMultiplier := 16 / 10 }])

/-- The demo teams state at simulation start. -/
def demoTeams : BattleTeams :=
  cloneTeams createDefaultTeams.1 createDefaultTeams.2

/-- C7: the turn-order list collects exactly the living fighters, team A
first then team B in team order; a comparator call on equal speeds draws
exactly two stream values and orders by their difference, on distinct
speeds it draws nothing; the sorted list is always a speed-descending
rearrangement of the collected entries; and with pairwise distinct speeds
the whole sort consumes no stream values and the descending order is
strict. -/
theorem c7_turn_order (teams : BattleTeams) (s : ℕ) :
    ((livingEntries teams).map (getFighter teams) =
      teams.teamA.filter (fun f => f.alive) ++ teams.teamB.filter (fun f => f.alive)) ∧
    (∀ x y : TurnEntry, speedOf teams x = speedOf teams y →
      cmpEntries teams s x y =
        ((rngNext (rngNext s).2).1 - (rngNext s).1, (rngNext (rngNext s).2).2)) ∧
    (∀ x y : TurnEntry, speedOf teams x ≠ speedOf teams y →
      cmpEntries teams s x y = (((speedOf teams y - speedOf teams x : ℤ) : ℚ), s)) ∧
    (((sortEntries teams (livingEntries teams) s).1).Perm (livingEntries teams)) ∧
    (List.Pairwise (fun x y => speedOf teams y ≤ speedOf teams x)
      (sortEntries teams (livingEntries teams) s).1) ∧
    (List.Pairwise (fun x y => speedOf teams x ≠ speedOf teams y) (livingEntries teams) →
      (sortEntries teams (livingEntries teams) s).2 = s ∧
      ((sortEntries teams (livingEntries teams) s).1).Perm (livingEntries teams) ∧
      List.Pairwise (fun x y => speedOf teams y < speedOf teams x)
        (sortEntries teams (livingEntries teams) s).1) := by
  have hsorted := sortEntries_go_sorted teams (livingEntries teams) [] s
    List.Pairwise.nil
  refine ⟨livingEntries_map_getFighter teams,
    fun x y h => cmpEntries_of_eq teams s x y h,
    fun x y h => cmpEntries_of_ne teams s x y h,
    by simpa using hsorted.2,
    hsorted.1,
    fun hdist => ?_⟩
  have h := sortEntries_go_distinct teams (livingEntries teams) [] s hdist
    (by intro x _ y hy; cases hy) List.Pairwise.nil
  unfold sortEntries
  rw [h.1]
  exact ⟨rfl, by simpa using h.2.2, h.2.1⟩

/-- Witness for C7 on the default rosters, whose four speeds are pairwise
distinct. -/
theorem c7_turn_order_witness :
    List.Pairwise (fun x y => speedOf demoTeams x ≠ speedOf demoTeams y)
      (livingEntries demoTeams) ∧
    (sortEntries demoTeams (livingEntries demoTeams) 0).2 = 0 ∧
    ((sortEntries demoTeams (livingEntries demoTeams) 0).1).Perm
      (livingEntries demoTeams) ∧
    List.Pairwise (fun x y => speedOf demoTeams y < speedOf demoTeams x)
      (sortEntries demoTeams (livingEntries demoTeams) 0).1 :=
  ⟨by decide,
   ((c7_turn_order demoTeams 0).2.2.2.2.2 (by decide)).1,
   ((c7_turn_order demoTeams 0).2.2.2.2.2 (by decide)).2.1,
   ((c7_turn_order demoTeams 0).2.2.2.2.2 (by decide)).2.2⟩

/-! ## Termination and the dead-team absorption property -/

lemma getD_alive_false_of_allDead (team : List InternalFighter)
    (h : allDead team = true) (i : ℕ) :
    (team.getD i default).alive = false := by
  by_cases hi : i < team.length
  · refine (allDead_iff team).mp h _ ?_
    rw [List.getD_eq_getElem team default hi]
    exact List.getElem_mem hi
  · rw [List.getD_eq_default team default (le_of_not_lt hi)]
    rfl

lemma runTurns_absorb (l : List TurnEntry) (round : ℕ) (teams : BattleTeams)
    (s : ℕ) (log : List BattleEvent)
    (h : allDead teams.teamA = true ∨ allDead teams.teamB = true) :
    runTurns l round teams s log = (teams, s, log) := by
  induction l with
  | nil => rfl
  | cons e rest ih =>
    by_cases halive : (getFighter teams e).alive = false
    · rw [show runTurns (e :: rest) round teams s log =
        runTurns rest round teams s log by simp [runTurns, halive]]
      exact ih
    · have halive2 : (getFighter teams e).alive = true := by
        cases hcase : (getFighter teams e).alive
        · exact absurd hcase halive
        · rfl
      have hdead : allDead (opponentsOf teams e.team) = true := by
        rcases h with hA | hB
        · cases ht : e.team
          · exfalso
            have hfalse := getD_alive_false_of_allDead teams.teamA hA e.idx
            rw [show getFighter teams e = teams.teamA.getD e.idx default by
              simp [getFighter, teamOf, ht]] at halive2
            rw [halive2] at hfalse
            exact Bool.noConfusion hfalse
          · exact hA
        · cases ht : e.team
          · exact hB
          · exfalso
            have hfalse := getD_alive_false_of_allDead teams.teamB hB e.idx
            rw [show getFighter teams e = teams.teamB.getD e.idx default by
              simp [getFighter, teamOf, ht]] at halive2
            rw [halive2] at hfalse
            exact Bool.noConfusion hfalse
      simp [runTurns, halive2, hdead]

lemma runRounds_absorb (fuel round : ℕ) (teams : BattleTeams) (s : ℕ)
    (log : List BattleEvent)
    (h : allDead teams.teamA = true ∨ allDead teams.teamB = true) :
    (runRounds fuel round teams s log).2.2.2 = log := by
  cases fuel with
  | zero => rfl
  | succ k =>
    unfold runRounds
    by_cases hemp : (livingEntries teams).length = 0
    · rw [if_pos hemp]
    · rw [if_neg hemp]
      simp only
      rw [runTurns_absorb _ _ _ _ _ h]
      have hor : (allDead teams.teamA || allDead teams.teamB) = true := by
        rcases h with hA | hB
        · rw [hA]; rfl
        · rw [hB, Bool.or_true]
      simp only [hor, if_pos]

lemma runRounds_fst_le (fuel round : ℕ) (teams : BattleTeams) (s : ℕ)
    (log : List BattleEvent) :
    (runRounds fuel round teams s log).1 ≤ round + fuel := by
  induction fuel generalizing round teams s log with
  | zero => simp [runRounds]
  | succ k ih =>
    unfold runRounds
    by_cases hemp : (livingEntries teams).length = 0
    · rw [if_pos hemp]; omega
    · rw [if_neg hemp]
      simp only
      split
      · omega
      · have := ih (round + 1)
          (runTurns (sortEntries teams (livingEntries teams) s).1 (round + 1) teams
            (sortEntries teams (livingEntries teams) s).2 log).1
          (runTurns (sortEntries teams (livingEntries teams) s).1 (round + 1) teams
            (sortEntries teams (livingEntries teams) s).2 log).2.1
          (runTurns (sortEntries teams (livingEntries teams) s).1 (round + 1) teams
            (sortEntries teams (livingEntries teams) s).2 log).2.2
        omega

lemma runTurns_cons_skip (e : TurnEntry) (rest : List TurnEntry) (round : ℕ)
    (teams : BattleTeams) (s : ℕ) (log : List BattleEvent)
    (halive : (getFighter teams e).alive = false) :
    runTurns (e :: rest) round teams s log = runTurns rest round teams s log := by
  simp [runTurns, halive]

lemma runTurns_cons_break (e : TurnEntry) (rest : List TurnEntry) (round : ℕ)
    (teams : BattleTeams) (s : ℕ) (log : List BattleEvent)
    (halive : (getFighter teams e).alive = true)
    (hdead : allDead (opponentsOf teams e.team) = true) :
    runTurns (e :: rest) round teams s log = (teams, s, log) := by
  simp [runTurns, halive, hdead]

lemma runTurns_cons_noTarget (e : TurnEntry) (rest : List TurnEntry) (round : ℕ)
    (teams : BattleTeams) (s s1 : ℕ) (log : List BattleEvent)
    (halive : (getFighter teams e).alive = true)
    (hdead : allDead (opponentsOf teams e.team) = false)
    (hct : chooseTarget s (opponentsOf teams e.team) = (none, s1)) :
    runTurns (e :: rest) round teams s log = runTurns rest round teams s1 log := by
  simp [runTurns, halive, hdead, hct]

lemma runTurns_cons_attack (e : TurnEntry) (rest : List TurnEntry) (round : ℕ)
    (teams : BattleTeams) (s s1 : ℕ) (tIdx : ℕ) (log : List BattleEvent)
    (halive : (getFighter teams e).alive = true)
    (hdead : allDead (opponentsOf teams e.team) = false)
    (hct : chooseTarget s (opponentsOf teams e.team) = (some tIdx, s1)) :
    runTurns (e :: rest) round teams s log =
      runTurns rest round (applyAttack teams round e tIdx s1).1
        (applyAttack teams round e tIdx s1).2.1
        (log ++ [(applyAttack teams round e tIdx s1).2.2]) := by
  simp [runTurns, halive, hdead, hct]

lemma alive_eq_true_of_ne_false (b : Bool) (h : ¬ b = false) : b = true := by
  cases b
  · exact absurd rfl h
  · rfl

lemma applyAttack_event_round (teams : BattleTeams) (round : ℕ) (e : TurnEntry)
    (tIdx s1 : ℕ) : ((applyAttack teams round e tIdx s1).2.2).round = round := rfl

lemma runTurns_events (l : List TurnEntry) (round : ℕ) (teams : BattleTeams)
    (s : ℕ) (log : List BattleEvent) :
    ∀ ev ∈ (runTurns l round teams s log).2.2, ev ∈ log ∨ ev.round = round := by
  induction l generalizing teams s log with
  | nil => intro ev hev; exact Or.inl hev
  | cons e rest ih =>
    intro ev hev
    by_cases halive : (getFighter teams e).alive = false
    · rw [runTurns_cons_skip e rest round teams s log halive] at hev
      exact ih teams s log ev hev
    · have halive2 := alive_eq_true_of_ne_false _ halive
      by_cases hdead : allDead (opponentsOf teams e.team) = true
      · rw [runTurns_cons_break e rest round teams s log halive2 hdead] at hev
        exact Or.inl hev
      · have hdead2 : allDead (opponentsOf teams e.team) = false := by
          cases hcase : allDead (opponentsOf teams e.team)
          · rfl
          · exact absurd hcase hdead
        rcases hct : chooseTarget s (opponentsOf teams e.team) with ⟨otgt, s1⟩
        cases otgt with
        | none =>
          rw [runTurns_cons_noTarget e rest round teams s s1 log halive2 hdead2 hct] at hev
          exact ih teams s1 log ev hev
        | some tIdx =>
          rw [runTurns_cons_attack e rest round teams s s1 tIdx log halive2 hdead2 hct] at hev
          rcases ih _ _ _ ev hev with hin | hr
          · rcases List.mem_append.mp hin with hin2 | hin2
            · exact Or.inl hin2
            · refine Or.inr ?_
              rw [List.mem_singleton.mp hin2]
              exact applyAttack_event_round teams round e tIdx s1
          · exact Or.inr hr

lemma runRounds_fst_ge (fuel round : ℕ) (teams : BattleTeams) (s : ℕ)
    (log : List BattleEvent) :
    round ≤ (runRounds fuel round teams s log).1 := by
  induction fuel generalizing round teams s log with
  | zero => simp [runRounds]
  | succ k ih =>
    unfold runRounds
    by_cases hemp : (livingEntries teams).length = 0
    · rw [if_pos hemp]; omega
    · rw [if_neg hemp]
      simp only
      split
      · omega
      · have := ih (round + 1)
          (runTurns (sortEntries teams (livingEntries teams) s).1 (round + 1) teams
            (sortEntries teams (livingEntries teams) s).2 log).1
          (runTurns (sortEntries teams (livingEntries teams) s).1 (round + 1) teams
            (sortEntries teams (livingEntries teams) s).2 log).2.1
          (runTurns (sortEntries teams (livingEntries teams) s).1 (round + 1) teams
            (sortEntries teams (livingEntries teams) s).2 log).2.2
        omega

lemma runRounds_events (fuel round : ℕ) (teams : BattleTeams) (s : ℕ)
    (log : List BattleEvent) :
    ∀ ev ∈ (runRounds fuel round teams s log).2.2.2, ev ∈ log ∨
      (round < ev.round ∧ ev.round ≤ (runRounds fuel round teams s log).1) := by
  induction fuel generalizing round teams s log with
  | zero => intro ev hev; exact Or.inl hev
  | succ k ih =>
    intro ev hev
    unfold runRounds at hev ⊢
    by_cases hemp : (livingEntries teams).length = 0
    · rw [if_pos hemp] at hev ⊢
      exact Or.inl hev
    · rw [if_neg hemp] at hev ⊢
      simp only at hev ⊢
      by_cases hbreak : (allDead (runTurns (sortEntries teams (livingEntries teams) s).1
          (round + 1) teams (sortEntries teams (livingEntries teams) s).2 log).1.teamA ||
          allDead (runTurns (sortEntries teams (livingEntries teams) s).1
          (round + 1) teams (sortEntries teams (livingEntries teams) s).2 log).1.teamB) = true
      · rw [if_pos hbreak] at hev ⊢
        rcases runTurns_events _ _ _ _ _ ev hev with hin | hr
        · exact Or.inl hin
        · exact Or.inr ⟨by omega, by omega⟩
      · rw [if_neg hbreak] at hev ⊢
        rcases ih (round + 1)
            (runTurns (sortEntries teams (livingEntries teams) s).1 (round + 1) teams
              (sortEntries teams (livingEntries teams) s).2 log).1
            (runTurns (sortEntries teams (livingEntries teams) s).1 (round + 1) teams
              (sortEntries teams (livingEntries teams) s).2 log).2.1
            (runTurns (sortEntries teams (livingEntries teams) s).1 (round + 1) teams
              (sortEntries teams (livingEntries teams) s).2 log).2.2 ev hev with hin | hr
        · rcases runTurns_events _ _ _ _ _ ev hin with hin2 | hr2
          · exact Or.inl hin2
          · refine Or.inr ⟨by omega, ?_⟩
            have := runRounds_fst_ge k (round + 1)
              (runTurns (sortEntries teams (livingEntries teams) s).1 (round + 1) teams
                (sortEntries teams (livingEntries teams) s).2 log).1
              (runTurns (sortEntries teams (livingEntries teams) s).1 (round + 1) teams
                (sortEntries teams (livingEntries teams) s).2 log).2.1
              (runTurns (sortEntries teams (livingEntries teams) s).1 (round + 1) teams
                (sortEntries teams (livingEntries teams) s).2 log).2.2
            omega
        · exact Or.inr ⟨by omega, hr.2⟩

/-- C8: the round loop runs at most maxRounds iterations and the returned
rounds count is bounded by maxRounds; every logged event carries a round
number between 1 and the returned rounds count (the counter starts at 1
and increments by one per round); and from any state in which a team has
no living fighter, turn execution stops without appending any further
event and the remaining round loop appends no further event at all (in
particular none attributed to either team). Termination itself holds by
construction: the loop is structurally bounded by its fuel. -/
theorem c8_termination_bounds (teamA teamB : List Character)
    (config : BattleConfig) (hpos : 0 < config.maxRounds) :
    (((simulateBattle teamA teamB config).rounds : ℤ) ≤ config.maxRounds) ∧
    (∀ ev ∈ (simulateBattle teamA teamB config).log,
      1 ≤ ev.round ∧ ev.round ≤ (simulateBattle teamA teamB config).rounds) ∧
    (∀ (l : List TurnEntry) (round : ℕ) (teams : BattleTeams) (s : ℕ)
        (log : List BattleEvent),
      allDead teams.teamA = true ∨ allDead teams.teamB = true →
      runTurns l round teams s log = (teams, s, log)) ∧
    (∀ (fuel round : ℕ) (teams : BattleTeams) (s : ℕ) (log : List BattleEvent),
      allDead teams.teamA = true ∨ allDead teams.teamB = true →
      (runRounds fuel round teams s log).2.2.2 = log) := by
  refine ⟨?_, ?_, runTurns_absorb, runRounds_absorb⟩
  · show (((runRounds config.maxRounds.toNat 0 (cloneTeams teamA teamB)
      (seedState config.seed) []).1 : ℤ)) ≤ config.maxRounds
    have h := runRounds_fst_le config.maxRounds.toNat 0 (cloneTeams teamA teamB)
      (seedState config.seed) []
    have h2 : (config.maxRounds.toNat : ℤ) = config.maxRounds :=
      Int.toNat_of_nonneg (le_of_lt hpos)
    omega
  · intro ev hev
    have hev2 : ev ∈ (runRounds config.maxRounds.toNat 0 (cloneTeams teamA teamB)
        (seedState config.seed) []).2.2.2 := hev
    rcases runRounds_events config.maxRounds.toNat 0 (cloneTeams teamA teamB)
        (seedState config.seed) [] ev hev2 with hin | hr
    · cases hin
    · exact ⟨by omega, hr.2⟩

/-- Witness for C8 at a concrete input. -/
theorem c8_termination_bounds_witness :
    0 < (BattleConfig.mk "w" 7).maxRounds ∧
    (((simulateBattle [] [] (BattleConfig.mk "w" 7)).rounds : ℤ) ≤
      (BattleConfig.mk "w" 7).maxRounds) :=
  ⟨by norm_num, (c8_termination_bounds [] [] (BattleConfig.mk "w" 7) (by norm_num)).1⟩

/-! ## Health bounds -/

/-- The per-fighter invariant: health within bounds and the alive flag
tracking positivity of health. -/
def FighterInv (f : InternalFighter) : Prop :=
  0 ≤ f.hp ∧ f.hp ≤ f.base.maxHp ∧ (f.alive = true ↔ 0 < f.hp)

/-- The invariant over both teams. -/
def TeamsInv (teams : BattleTeams) : Prop :=
  (∀ f ∈ teams.teamA, FighterInv f) ∧ ∀ f ∈ teams.teamB, FighterInv f

/-- The per-event law of the claim: positive integer damage and the
damage-application equation on the target snapshot. -/
def GoodEvent (ev : BattleEvent) : Prop :=
  1 ≤ ev.damage ∧ ev.target.hpAfter = max 0 (ev.target.hpBefore - ev.damage)

lemma computeDamage_pos (s : ℕ) (attacker defender : InternalFighter) :
    1 ≤ (computeDamage s attacker defender).1.1 := by
  simp only [computeDamage]
  exact le_max_left _ _

lemma applyAttack_goodEvent (teams : BattleTeams) (round : ℕ) (e : TurnEntry)
    (tIdx s1 : ℕ) : GoodEvent (applyAttack teams round e tIdx s1).2.2 :=
  ⟨computeDamage_pos _ _ _, rfl⟩

lemma livingIdx_mem (team : List InternalFighter) (i : ℕ) (h : i ∈ livingIdx team) :
    i < team.length ∧ (team.getD i default).alive = true := by
  unfold livingIdx at h
  rw [List.mem_filter] at h
  exact ⟨List.mem_range.mp h.1, h.2⟩

lemma chooseTarget_some (s : ℕ) (opponents : List InternalFighter) (tIdx : ℕ)
    (s1 : ℕ) (h : chooseTarget s opponents = (some tIdx, s1)) :
    tIdx < opponents.length ∧ (opponents.getD tIdx default).alive = true := by
  unfold chooseTarget at h
  by_cases hlen : (livingIdx opponents).length = 0
  · rw [if_pos hlen] at h
    exact absurd (congrArg Prod.fst h) (by simp)
  · rw [if_neg hlen] at h
    simp only [Prod.mk.injEq, Option.some.injEq] at h
    have hk : ((rngNextInt s ((livingIdx opponents).length : ℤ)).1).toNat <
        (livingIdx opponents).length := by
      have h1 := rngNextInt_nonneg s ((livingIdx opponents).length : ℤ)
      have h2 := rngNextInt_lt s ((livingIdx opponents).length : ℤ)
        (by exact_mod_cast Nat.pos_of_ne_zero hlen)
      omega
    have hmem : (livingIdx opponents).getD
        ((rngNextInt s ((livingIdx opponents).length : ℤ)).1).toNat 0 ∈
        livingIdx opponents := by
      rw [List.getD_eq_getElem _ _ hk]
      exact List.getElem_mem hk
    rw [h.1] at hmem
    exact livingIdx_mem opponents tIdx hmem

lemma target_inv_after_hit (target : InternalFighter) (damage : ℤ)
    (hinv : FighterInv target) (halive : target.alive = true) (hdmg : 1 ≤ damage) :
    FighterInv { target with
      hp := (max 0 (target.hp - damage)),
      alive := (if max 0 (target.hp - damage) = 0 then false else target.alive) } := by
  obtain ⟨h0, hmax, hflag⟩ := hinv
  refine ⟨le_max_left _ _, ?_, ?_⟩
  · show max 0 (target.hp - damage) ≤ target.base.maxHp
    exact max_le (le_trans h0 hmax) (le_trans (by omega) hmax)
  · show (if max 0 (target.hp - damage) = 0 then false else target.alive) = true ↔
      0 < max 0 (target.hp - damage)
    by_cases hz : max 0 (target.hp - damage) = 0
    · rw [if_pos hz, hz]
      simp
    · rw [if_neg hz, halive]
      have : 0 < max 0 (target.hp - damage) := by
        rcases lt_or_eq_of_le (le_max_left 0 (target.hp - damage)) with hlt | heq
        · exact hlt
        · exact absurd heq.symm hz
      simp [this]

lemma setFighter_inv (teams : BattleTeams) (tag : TeamTag) (i : ℕ)
    (f1 : InternalFighter) (hinv : TeamsInv teams) (hf : FighterInv f1) :
    TeamsInv (setFighter teams tag i f1) := by
  cases tag
  · refine ⟨?_, hinv.2⟩
    intro g hg
    rcases List.mem_or_eq_of_mem_set hg with h | h
    · exact hinv.1 g h
    · exact h ▸ hf
  · refine ⟨hinv.1, ?_⟩
    intro g hg
    rcases List.mem_or_eq_of_mem_set hg with h | h
    · exact hinv.2 g h
    · exact h ▸ hf

lemma applyAttack_inv (teams : BattleTeams) (round : ℕ) (e : TurnEntry)
    (tIdx s1 : ℕ) (hinv : TeamsInv teams)
    (htIdx : tIdx < (opponentsOf teams e.team).length)
    (halive : ((opponentsOf teams e.team).getD tIdx default).alive = true) :
    TeamsInv (applyAttack teams round e tIdx s1).1 := by
  have htmem : (opponentsOf teams e.team).getD tIdx default ∈
      opponentsOf teams e.team := by
    rw [List.getD_eq_getElem _ _ htIdx]
    exact List.getElem_mem htIdx
  have htinv : FighterInv ((opponentsOf teams e.team).getD tIdx default) := by
    cases ht : e.team
    · rw [ht] at htmem
      exact hinv.2 _ htmem
    · rw [ht] at htmem
      exact hinv.1 _ htmem
  have hstep := target_inv_after_hit ((opponentsOf teams e.team).getD tIdx default)
    (computeDamage s1 (getFighter teams e)
      ((opponentsOf teams e.team).getD tIdx default)).1.1
    htinv halive (computeDamage_pos _ _ _)
  exact setFighter_inv teams (opponentTag e.team) tIdx _ hinv hstep

lemma runTurns_inv (l : List TurnEntry) (round : ℕ) (teams : BattleTeams)
    (s : ℕ) (log : List BattleEvent) (hinv : TeamsInv teams) :
    TeamsInv (runTurns l round teams s log).1 := by
  induction l generalizing teams s log with
  | nil => exact hinv
  | cons e rest ih =>
    by_cases halive : (getFighter teams e).alive = false
    · rw [runTurns_cons_skip e rest round teams s log halive]
      exact ih teams s log hinv
    · have halive2 := alive_eq_true_of_ne_false _ halive
      by_cases hdead : allDead (opponentsOf teams e.team) = true
      · rw [runTurns_cons_break e rest round teams s log halive2 hdead]
        exact hinv
      · have hdead2 : allDead (opponentsOf teams e.team) = false := by
          cases hcase : allDead (opponentsOf teams e.team)
          · rfl
          · exact absurd hcase hdead
        rcases hct : chooseTarget s (opponentsOf teams e.team) with ⟨otgt, s1⟩
        cases otgt with
        | none =>
          rw [runTurns_cons_noTarget e rest round teams s s1 log halive2 hdead2 hct]
          exact ih teams s1 log hinv
        | some tIdx =>
          rw [runTurns_cons_attack e rest round teams s s1 tIdx log halive2 hdead2 hct]
          have hsome := chooseTarget_some s (opponentsOf teams e.team) tIdx s1 hct
          exact ih _ _ _ (applyAttack_inv teams round e tIdx s1 hinv hsome.1 hsome.2)

lemma runTurns_good (l : List TurnEntry) (round : ℕ) (teams : BattleTeams)
    (s : ℕ) (log : List BattleEvent) (hlog : ∀ ev ∈ log, GoodEvent ev) :
    ∀ ev ∈ (runTurns l round teams s log).2.2, GoodEvent ev := by
  induction l generalizing teams s log with
  | nil => exact hlog
  | cons e rest ih =>
    by_cases halive : (getFighter teams e).alive = false
    · rw [runTurns_cons_skip e rest round teams s log halive]
      exact ih teams s log hlog
    · have halive2 := alive_eq_true_of_ne_false _ halive
      by_cases hdead : allDead (opponentsOf teams e.team) = true
      · rw [runTurns_cons_break e rest round teams s log halive2 hdead]
        exact hlog
      · have hdead2 : allDead (opponentsOf teams e.team) = false := by
          cases hcase : allDead (opponentsOf teams e.team)
          · rfl
          · exact absurd hcase hdead
        rcases hct : chooseTarget s (opponentsOf teams e.team) with ⟨otgt, s1⟩
        cases otgt with
        | none =>
          rw [runTurns_cons_noTarget e rest round teams s s1 log halive2 hdead2 hct]
          exact ih teams s1 log hlog
        | some tIdx =>
          rw [runTurns_cons_attack e rest round teams s s1 tIdx log halive2 hdead2 hct]
          refine ih _ _ _ ?_
          intro ev hev
          rcases List.mem_append.mp hev with h | h
          · exact hlog ev h
          · rw [List.mem_singleton.mp h]
            exact applyAttack_goodEvent teams round e tIdx s1

lemma runRounds_inv (fuel round : ℕ) (teams : BattleTeams) (s : ℕ)
    (log : List BattleEvent) (hinv : TeamsInv teams) :
    TeamsInv (runRounds fuel round teams s log).2.1 := by
  induction fuel generalizing round teams s log with
  | zero => exact hinv
  | succ k ih =>
    unfold runRounds
    by_cases hemp : (livingEntries teams).length = 0
    · rw [if_pos hemp]
      exact hinv
    · rw [if_neg hemp]
      simp only
      split
      · exact runTurns_inv _ _ _ _ _ hinv
      · exact ih _ _ _ _ (runTurns_inv _ _ _ _ _ hinv)

lemma runRounds_good (fuel round : ℕ) (teams : BattleTeams) (s : ℕ)
    (log : List BattleEvent) (hlog : ∀ ev ∈ log, GoodEvent ev) :
    ∀ ev ∈ (runRounds fuel round teams s log).2.2.2, GoodEvent ev := by
  induction fuel generalizing round teams s log with
  | zero => exact hlog
  | succ k ih =>
    unfold runRounds
    by_cases hemp : (livingEntries teams).length = 0
    · rw [if_pos hemp]
      exact hlog
    · rw [if_neg hemp]
      simp only
      split
      · exact runTurns_good _ _ _ _ _ hlog
      · exact ih _ _ _ _ (runTurns_good _ _ _ _ _ hlog)

lemma cloneTeams_inv (teamA teamB : List Character)
    (hA : ∀ c ∈ teamA, 0 < c.maxHp) (hB : ∀ c ∈ teamB, 0 < c.maxHp) :
    TeamsInv (cloneTeams teamA teamB) := by
  constructor
  · intro f hf
    obtain ⟨c, hc, rfl⟩ := List.mem_map.mp hf
    exact ⟨le_of_lt (hA c hc), le_refl _, by simpa using hA c hc⟩
  · intro f hf
    obtain ⟨c, hc, rfl⟩ := List.mem_map.mp hf
    exact ⟨le_of_lt (hB c hc), le_refl _, by simpa using hB c hc⟩

/-- C5: with every template of positive maximum health, the teams
invariant (health in [0, maxHp], alive flag iff positive health) holds at
simulation start and is preserved by every turn execution and by the
round loop, hence holds of every final snapshot; and every event ever
appended to the log has integer damage at least 1 and a target snapshot
with hpAfter = max 0 (hpBefore - damage). -/
theorem c5_health_invariants (teamA teamB : List Character)
    (config : BattleConfig)
    (hA : ∀ c ∈ teamA, 0 < c.maxHp) (hB : ∀ c ∈ teamB, 0 < c.maxHp) :
    TeamsInv (cloneTeams teamA teamB) ∧
    (∀ (teams : BattleTeams) (round : ℕ) (e : TurnEntry) (tIdx s1 : ℕ),
      TeamsInv teams → tIdx < (opponentsOf teams e.team).length →
      ((opponentsOf teams e.team).getD tIdx default).alive = true →
      TeamsInv (applyAttack teams round e tIdx s1).1) ∧
    (∀ (l : List TurnEntry) (round : ℕ) (teams : BattleTeams) (s : ℕ)
        (log : List BattleEvent), TeamsInv teams →
      TeamsInv (runTurns l round teams s log).1) ∧
    (∀ (fuel round : ℕ) (teams : BattleTeams) (s : ℕ) (log : List BattleEvent),
      TeamsInv teams → TeamsInv (runRounds fuel round teams s log).2.1) ∧
    (∀ f ∈ (simulateBattle teamA teamB config).finalState.teamA,
      0 ≤ f.hp ∧ f.hp ≤ f.maxHp ∧ (f.alive = true ↔ 0 < f.hp)) ∧
    (∀ f ∈ (simulateBattle teamA teamB config).finalState.teamB,
      0 ≤ f.hp ∧ f.hp ≤ f.maxHp ∧ (f.alive = true ↔ 0 < f.hp)) ∧
    (∀ ev ∈ (simulateBattle teamA teamB config).log, GoodEvent ev) := by
  have hclone := cloneTeams_inv teamA teamB hA hB
  have hfin : TeamsInv (runRounds config.maxRounds.toNat 0 (cloneTeams teamA teamB)
      (seedState config.seed) []).2.1 :=
    runRounds_inv _ _ _ _ _ hclone
  refine ⟨hclone,
    fun teams round e tIdx s1 h h1 h2 => applyAttack_inv teams round e tIdx s1 h h1 h2,
    fun l round teams s log h => runTurns_inv l round teams s log h,
    fun fuel round teams s log h => runRounds_inv fuel round teams s log h,
    ?_, ?_, ?_⟩
  · intro f hf
    obtain ⟨g, hg, rfl⟩ := List.mem_map.mp hf
    exact hfin.1 g hg
  · intro f hf
    obtain ⟨g, hg, rfl⟩ := List.mem_map.mp hf
    exact hfin.2 g hg
  · intro ev hev
    exact runRounds_good config.maxRounds.toNat 0 (cloneTeams teamA teamB)
      (seedState config.seed) [] (by intro ev2 hev2; cases hev2) ev hev

/-- Witness for C5 on the default rosters. -/
theorem c5_health_invariants_witness :
    (∀ c ∈ createDefaultTeams.1, 0 < c.maxHp) ∧
    (∀ c ∈ createDefaultTeams.2, 0 < c.maxHp) ∧
    ∀ ev ∈ (simulateBattle createDefaultTeams.1 createDefaultTeams.2
      (BattleConfig.mk "RAIKU-DEMO-SEED-001" 20)).log, GoodEvent ev :=
  ⟨by decide, by decide,
   (c5_health_invariants createDefaultTeams.1 createDefaultTeams.2
     (BattleConfig.mk "RAIKU-DEMO-SEED-001" 20)
     (by decide) (by decide)).2.2.2.2.2.2⟩
